import Mathlib

/-!
Verification of the Stabilization-OS core (daily stack builder, task lifecycle,
habit engine) against its natural-language specification.

The definitions below are a shallow embedding of `src/db.ts` (and, where the
source file is absent from the snapshot, of the spec's description of
`src/habits.ts` and `upsertHabitLog`).  Conventions of the embedding:

* ISO timestamp strings are represented by their epoch-millisecond value
  (an `Int`); `new Date(s).getTime()` is the identity in the model.
* Calendar dates (`YYYY-MM-DD` strings) are represented by their epoch-day
  number (an `Int`); `daysFromCivil` maps a civil date to that number.
* Optional fields become `Option`; JS truthiness of an optional numeric field
  is `isSome` together with being nonzero where the source relies on it.
* Durations in minutes (`estimateMinutes`) are nonnegative and modelled as
  `Nat`; scores are exact rationals (`Rat`) because the money-impact bonus
  divides by 20.
* `Array.prototype.sort` with comparator `(a, b) => b.score - a.score` is a
  stable descending sort by score; the stable sorted permutation is unique,
  so it is modelled by a stable insertion sort (`sortByScoreDesc`).
-/

namespace StabOS

/-- One of the two top-level life areas of a task (`TaskDomain` in `db.ts`). -/
inductive TaskDomain where
  | LIFE_ADMIN
  | BUSINESS
deriving DecidableEq, Repr

/-- The fixed category kinds carrying priority weights (`CategoryKind`). -/
inductive CategoryKind where
  | LEGAL
  | MONEY
  | MAINTENANCE
  | CAREGIVER
deriving DecidableEq, Repr

/-- Task lifecycle states (`TaskStatus` in `db.ts`). -/
inductive TaskStatus where
  | BACKLOG
  | TODAY
  | IN_PROGRESS
  | PENDING
  | DONE
  | ARCHIVED
deriving DecidableEq, Repr

/-- A category record (`Category` in `db.ts`; the context card carries no
decision logic and is omitted). -/
structure Category where
  id : String
  name : String
  kind : CategoryKind
deriving DecidableEq, Repr

/-- A task record (`Task` in `db.ts`).  Fields that never enter the core
logic (context card, subtasks, free-text notes) are omitted; timestamps are
epoch milliseconds. -/
structure Task where
  id : String
  categoryId : String
  domain : TaskDomain
  title : String
  status : TaskStatus
  priority : Nat
  dueDate : Option Int := none
  softDeadline : Option Int := none
  blockedByTaskIds : List String := []
  estimateMinutes : Option Nat := none
  actualSecondsTotal : Nat := 0
  moneyImpact : Option Int := none
  nextActionAt : Option Int := none
  completedAt : Option Int := none
  createdAt : Int := 0
  updatedAt : Int := 0
deriving DecidableEq, Repr

/-- Milliseconds per day, the `86_400_000` constant of `scoreTask`. -/
def msPerDay : Int := 86400000

/-- `isWaiting(task, now)` from `db.ts`: PENDING with a future
`nextActionAt`. -/
def isWaiting (task : Task) (now : Int) : Bool :=
  task.status == .PENDING &&
    (match task.nextActionAt with
     | some t => decide (now < t)
     | none => false)

/-- `isActionable(task, now)` from `db.ts`. -/
def isActionable (task : Task) (now : Int) : Bool :=
  if task.status == .DONE || task.status == .ARCHIVED then false
  else if task.status != .PENDING then true
  else
    match task.nextActionAt with
    | none => true
    | some t => decide (t ≤ now)

/-- The `KIND_WEIGHTS` table of `db.ts`; a missing or unmatched kind weighs
0 (`KIND_WEIGHTS[categoryKind ?? ""] ?? 0`). -/
def kindWeight : Option CategoryKind → Rat
  | some .LEGAL => 40
  | some .MONEY => 30
  | some .MAINTENANCE => 10
  | some .CAREGIVER => 5
  | none => 0

/-- `scoreTask(task, categoryKind, availableMinutesRemaining)` from `db.ts`,
with the ambient `Date.now()` passed explicitly as `now`. -/
def scoreTask (task : Task) (categoryKind : Option CategoryKind)
    (availableMinutesRemaining : Int) (now : Int) : Rat :=
  if !isActionable task now then -1
  else if !task.blockedByTaskIds.isEmpty then -1
  else if (match task.estimateMinutes with
           | some e => e != 0 && decide (availableMinutesRemaining < (e : Int)) &&
               decide (0 < availableMinutesRemaining)
           | none => false) then -1
  else
    let s1 : Rat := kindWeight categoryKind
    let s2 : Rat :=
      match task.dueDate with
      | some d => if d - now ≤ 3 * msPerDay then 35
                  else if d - now ≤ 7 * msPerDay then 25 else 0
      | none => 0
    let s3 : Rat :=
      match task.softDeadline with
      | some d => if d - now ≤ 7 * msPerDay then 15 else 0
      | none => 0
    let s4 : Rat := if task.status == .IN_PROGRESS then 20 else 0
    let s5 : Rat := if task.status == .TODAY then 50 else 0
    let est : Nat := task.estimateMinutes.getD 30
    let s6 : Rat := if est ≤ 15 then 12 else if est ≤ 30 then 8 else 0
    let s7 : Rat :=
      match task.moneyImpact with
      | some mi => if 0 < mi then min 20 ((mi : Rat) / 20) else 0
      | none => 0
    s1 + s2 + s3 + s4 + s5 + s6 + s7

/-- `markTaskDone` from `db.ts`, as a pure record update. -/
def markTaskDone (t : Task) (now : Int) : Task :=
  { t with status := .DONE, completedAt := some now, updatedAt := now }

/-- `markTaskArchived` from `db.ts` (`completedAt: task?.completedAt ?? now`). -/
def markTaskArchived (t : Task) (now : Int) : Task :=
  { t with
    status := .ARCHIVED
    completedAt := some (t.completedAt.getD now)
    updatedAt := now }

/-- `unmarkTaskDone` from `db.ts`: back to BACKLOG, `completedAt` cleared. -/
def unmarkTaskDone (t : Task) (now : Int) : Task :=
  { t with status := .BACKLOG, completedAt := none, updatedAt := now }

/-- A `{task, score}` pair of `buildStabilizerStackSplit`'s scored pool. -/
structure Scored where
  task : Task
  score : Rat

/-- The result type of `buildStabilizerStackSplit`. -/
structure StackSplit where
  pinned : List Task
  suggested : List Task
deriving DecidableEq, Repr

/-- The `catMap` lookup of `buildStabilizerStackSplit`: a JS `Map` built from
`categories.map(c => [c.id, c])` keeps the last entry for a duplicated id,
hence the lookup searches the reversed list. -/
def catLookup (categories : List Category) (cid : String) : Option Category :=
  categories.reverse.find? (fun c => c.id == cid)

/-- Stable insertion into a weakly descending (by score) list: the new
element goes after every element of strictly greater score and before the
rest, which is exactly where a stable descending sort places it. -/
def insertDesc (p : Scored) : List Scored → List Scored
  | [] => [p]
  | q :: qs => if p.score < q.score then q :: insertDesc p qs else p :: q :: qs

/-- The `sort((a, b) => b.score - a.score)` call: a stable descending sort by
score (JS `Array.prototype.sort` is stable, and the stable sorted permutation
is unique, so insertion sort computes it). -/
def sortByScoreDesc (l : List Scored) : List Scored :=
  l.foldr insertDesc []

/-- The loop body of `fillFromScored` in `db.ts`, one iteration per element
of the scored list.  `poolBig` is the loop-invariant `scoredList.length > cap`
test on the whole list; `kindCount` maps a category kind (`none` for the
missing-category `""` key) to its count among accepted tasks. -/
def fillGo (cats : List Category) (cap : Nat) (minsLeft : Int) (poolBig : Bool) :
    List Scored → List Task → Int → (Option CategoryKind → Nat) → List Task
  | [], result, _, _ => result
  | s :: rest, result, usedMinutes, kindCount =>
    if cap ≤ result.length then
      fillGo cats cap minsLeft poolBig rest result usedMinutes kindCount
    else if minsLeft < usedMinutes + ((s.task.estimateMinutes.getD 15 : Nat) : Int)
        ∧ 0 < usedMinutes then
      fillGo cats cap minsLeft poolBig rest result usedMinutes kindCount
    else if 2 ≤ kindCount ((catLookup cats s.task.categoryId).map (·.kind))
        ∧ poolBig = true then
      fillGo cats cap minsLeft poolBig rest result usedMinutes kindCount
    else
      fillGo cats cap minsLeft poolBig rest (result ++ [s.task])
        (usedMinutes + (s.task.estimateMinutes.getD 15 : Nat))
        (fun k => if k = (catLookup cats s.task.categoryId).map (·.kind)
                  then kindCount k + 1 else kindCount k)

/-- `fillFromScored(scoredList, cap, minsLeft)` from `db.ts`. -/
def fillFromScored (cats : List Category) (scoredList : List Scored)
    (cap : Nat) (minsLeft : Int) : List Task :=
  fillGo cats cap minsLeft (decide (cap < scoredList.length)) scoredList [] 0
    (fun _ => 0)

/-- `buildStabilizerStackSplit(tasks, categories, availableMinutes,
maxTasks = 5)` from `db.ts`, with the ambient `Date.now()` passed as `now`. -/
def buildStabilizerStackSplit (tasks : List Task) (categories : List Category)
    (availableMinutes : Int) (maxTasks : Nat) (now : Int) : StackSplit :=
  let pool := tasks.filter
    (fun t => t.domain == .LIFE_ADMIN && isActionable t now)
  let pinned := (pool.filter (fun t => t.status == .TODAY)).take maxTasks
  let pinnedIds := pinned.map (·.id)
  let pinnedMins : Nat := (pinned.map (fun t => t.estimateMinutes.getD 15)).sum
  let scored :=
    ((pool.filter (fun t => !pinnedIds.contains t.id)).map
      (fun t =>
        { task := t
          score := scoreTask t ((catLookup categories t.categoryId).map (·.kind))
            availableMinutes now : Scored })).filter
      (fun s => decide (0 ≤ s.score))
  let sorted := sortByScoreDesc scored
  let suggested := fillFromScored categories sorted (maxTasks - pinned.length)
    (max 0 (availableMinutes - (pinnedMins : Int)))
  { pinned := pinned, suggested := suggested }

/-- `buildStabilizerStack` from `db.ts`: the pinned-first concatenation. -/
def buildStabilizerStack (tasks : List Task) (categories : List Category)
    (availableMinutes : Int) (maxTasks : Nat) (now : Int) : List Task :=
  (buildStabilizerStackSplit tasks categories availableMinutes maxTasks
    now).pinned ++
  (buildStabilizerStackSplit tasks categories availableMinutes maxTasks
    now).suggested

/-- The summed `estimateMinutes` of a task list, an unset estimate
contributing nothing (the quantity bounded by the capacity part of the
spec's stack-builder guarantees). -/
def estSum (l : List Task) : Int :=
  (l.map (fun t => ((t.estimateMinutes.getD 0 : Nat) : Int))).sum

def t0 : Task :=
  { id := "a", categoryId := "c", domain := .LIFE_ADMIN, title := "x",
    status := .BACKLOG, priority := 2, estimateMinutes := some 30 }

def cats0 : List Category := [{ id := "c", name := "LEGAL", kind := .LEGAL }]

/-- Epoch-day number of a civil date (proleptic Gregorian), the standard
days-from-civil computation; `daysFromCivil 1970 1 1 = 0`.  This is the model
of a `YYYY-MM-DD` string. -/
def daysFromCivil (y : Int) (m : Nat) (d : Nat) : Int :=
  let y' : Int := if m ≤ 2 then y - 1 else y
  let era : Int := (if 0 ≤ y' then y' else y' - 399).fdiv 400
  let yoe : Int := y' - era * 400
  let mp : Int := if 2 < m then (m : Int) - 3 else (m : Int) + 9
  let doy : Int := (153 * mp + 2).fdiv 5 + (d : Int) - 1
  let doe : Int := yoe * 365 + yoe.fdiv 4 - yoe.fdiv 100 + doy
  era * 146097 + doe - 719468

/-- Weekday of an epoch day, 0 = Sunday (1970-01-01 was a Thursday). -/
def weekdayOf (day : Int) : Int := (day + 4).emod 7

/-- Habit schedule types (spec section 3). -/
inductive ScheduleType where
  | DAILY
  | WEEKDAYS
  | EVERY_N_DAYS
  | TIMES_PER_WEEK
deriving DecidableEq, Repr

/-- Habit logging modes (spec section 3). -/
inductive HabitType where
  | CHECK
  | COUNT
  | TIME
deriving DecidableEq, Repr

/-- A habit record, after the spec's data model (section 3) and the fields
used by `habits.test.ts`; dates are epoch-day numbers. -/
structure Habit where
  id : String
  name : String
  type : HabitType
  scheduleType : ScheduleType
  weekdays : List Nat := []
  everyNDays : Option Nat := none
  timesPerWeek : Option Nat := none
  startDate : Int
  goalTarget : Option Int := none
  showInToday : Bool := true
  allowPartial : Bool := false
  allowSkip : Bool := true
  sortOrder : Nat := 1
deriving DecidableEq, Repr

/-- Modelled from the spec: the schedule predicate `isHabitScheduledOnDate`
of `src/habits.ts`, a file absent from the source snapshot (only its tests
and callers are present).  Spec section 4.2: false before `startDate`; DAILY
always true; WEEKDAYS true iff the date's weekday (0 = Sunday) is listed;
EVERY_N_DAYS true iff the whole-day difference from `startDate` is evenly
divisible by `max(1, everyNDays)`; TIMES_PER_WEEK true for every day. -/
def isHabitScheduledOnDate (habit : Habit) (date : Int) : Bool :=
  if date < habit.startDate then false
  else
    match habit.scheduleType with
    | .DAILY => true
    | .WEEKDAYS => habit.weekdays.any (fun w => (w : Int) == weekdayOf date)
    | .EVERY_N_DAYS =>
        (date - habit.startDate).emod ((max 1 (habit.everyNDays.getD 1) : Nat) : Int) == 0
    | .TIMES_PER_WEEK => true

/-- Habit log statuses (spec section 3). -/
inductive HabitLogStatus where
  | DONE
  | PARTIAL
  | SKIP
  | NONE
deriving DecidableEq, Repr

/-- One outcome record per (habit, date) pair, after the spec's data model
and `habits.test.ts`; the date is an epoch-day number. -/
structure HabitLog where
  id : String
  habitId : String
  date : Int
  status : HabitLogStatus
  value : Option Int := none
  note : Option String := none
deriving DecidableEq, Repr

/-- The `{status, value, note}` argument of `upsertHabitLog`. -/
structure HabitLogPatch where
  status : HabitLogStatus
  value : Option Int := none
  note : Option String := none
deriving DecidableEq, Repr

/-- The stored habit-log records for one (habitId, date) key. -/
def logsFor (store : List HabitLog) (habitId : String) (date : Int) :
    List HabitLog :=
  store.filter (fun l => l.habitId == habitId && l.date == date)

/-- Modelled from the spec: `upsertHabitLog(habitId, date, {status, value,
note})`, whose implementation is absent from the source snapshot (the habit
tables of `db.ts` and the upsert itself; only its tests and callers are
present).  Spec section 4.2: at most one stored record per (habitId, date);
if one exists, overwrite it in place; else insert a fresh record (`newId` is
the generated id of the inserted record). -/
def upsertHabitLog (store : List HabitLog) (habitId : String) (date : Int)
    (p : HabitLogPatch) (newId : String) : List HabitLog :=
  if store.any (fun l => l.habitId == habitId && l.date == date) then
    store.map (fun l =>
      if l.habitId == habitId && l.date == date then
        { l with status := p.status, value := p.value, note := p.note }
      else l)
  else
    store ++ [{ id := newId, habitId := habitId, date := date,
                status := p.status, value := p.value, note := p.note }]

/-- A sample PENDING task with a future `nextActionAt`, and a sample
BACKLOG task, used as concrete instances below. -/
def pendingTask : Task :=
  { id := "p", categoryId := "c", domain := .LIFE_ADMIN, title := "w",
    status := .PENDING, priority := 2, nextActionAt := some 10 }

/-- A blocked task: `scoreTask` returns `-1` for it under every category
kind, so the strict kind ordering of claim C7 fails on it. -/
def blockedTask : Task := { t0 with blockedByTaskIds := ["b"] }

/-- The EVERY_N_DAYS habit of the spec's worked example: every 3 days
starting 2026-02-01. -/
def exHabit : Habit :=
  { id := "h", name := "w", type := .CHECK, scheduleType := .EVERY_N_DAYS,
    everyNDays := some 3, startDate := daysFromCivil 2026 2 1 }

/-- The record inserted by `upsertHabitLog` when no log exists for the key. -/
def mkLog (newId hid : String) (d : Int) (p : HabitLogPatch) : HabitLog :=
  { id := newId, habitId := hid, date := d,
    status := p.status, value := p.value, note := p.note }

/-! Helper lemmas about `scoreTask`. -/

/-- The additive part of `scoreTask` that does not depend on the category
kind or the remaining budget (everything after the exclusion checks except
the kind weight). -/
def scoreBase (task : Task) (now : Int) : Rat :=
  (match task.dueDate with
   | some d => if d - now ≤ 3 * msPerDay then 35
               else if d - now ≤ 7 * msPerDay then 25 else 0
   | none => 0)
  + (match task.softDeadline with
     | some d => if d - now ≤ 7 * msPerDay then 15 else 0
     | none => 0)
  + (if task.status == .IN_PROGRESS then 20 else 0)
  + (if task.status == .TODAY then 50 else 0)
  + (if task.estimateMinutes.getD 30 ≤ 15 then 12
     else if task.estimateMinutes.getD 30 ≤ 30 then 8 else 0)
  + (match task.moneyImpact with
     | some mi => if 0 < mi then min 20 ((mi : Rat) / 20) else 0
     | none => 0)

/-- The exclusion condition of `scoreTask`, as the spec words it. -/
def scoreExcluded (task : Task) (m : Int) (now : Int) : Prop :=
  isActionable task now = false ∨ task.blockedByTaskIds ≠ [] ∨
    ∃ e, task.estimateMinutes = some e ∧ m < (e : Int) ∧ 0 < m

theorem kindWeight_nonneg (k : Option CategoryKind) : 0 ≤ kindWeight k := by
  rcases k with _ | k
  · norm_num [kindWeight]
  · cases k <;> norm_num [kindWeight]

theorem scoreBase_nonneg (task : Task) (now : Int) : 0 ≤ scoreBase task now := by
  unfold scoreBase
  have h7 : (0 : Rat) ≤
      (match task.moneyImpact with
       | some mi => if 0 < mi then min 20 ((mi : Rat) / 20) else 0
       | none => 0) := by
    rcases task.moneyImpact with _ | mi
    · norm_num
    · dsimp only
      split
      · rename_i hmi
        have : (0 : Rat) ≤ (mi : Rat) / 20 := by positivity
        exact le_min (by norm_num) this
      · norm_num
  refine add_nonneg (add_nonneg (add_nonneg (add_nonneg (add_nonneg ?_ ?_) ?_) ?_) ?_) h7
  · rcases task.dueDate with _ | d
    · norm_num
    · dsimp only; split
      · norm_num
      · split <;> norm_num
  · rcases task.softDeadline with _ | d
    · norm_num
    · dsimp only; split <;> norm_num
  · split <;> norm_num
  · split <;> norm_num
  · split
    · norm_num
    · split <;> norm_num

/-- If none of the exclusion checks fires, `scoreTask` is the kind weight
plus the kind-independent base score. -/
theorem scoreTask_eq_of_not_excluded (task : Task) (k : Option CategoryKind)
    (m now : Int) (hA : isActionable task now = true)
    (hB : task.blockedByTaskIds = [])
    (hE : ∀ e, task.estimateMinutes = some e → (m < (e : Int) → ¬ 0 < m)) :
    scoreTask task k m now = kindWeight k + scoreBase task now := by
  have hcond : (match task.estimateMinutes with
      | some e => e != 0 && decide (m < (e : Int)) && decide (0 < m)
      | none => false) = false := by
    rcases hEq : task.estimateMinutes with _ | e
    · rfl
    · have := hE e hEq
      by_cases h1 : m < (e : Int)
      · have h2 : ¬ 0 < m := this h1
        simp [h1, h2]
      · simp [h1]
  unfold scoreTask
  rw [hA, hB, hcond]
  simp only [Bool.not_true, List.isEmpty_nil, Bool.false_eq_true, if_false,
    if_true, Bool.not_false]
  unfold scoreBase
  ring

/-- `scoreTask` returns `-1` exactly on the exclusion condition. -/
theorem scoreTask_eq_neg_one_iff (task : Task) (k : Option CategoryKind)
    (m now : Int) :
    scoreTask task k m now = -1 ↔ scoreExcluded task m now := by
  constructor
  · intro h
    by_contra hexc
    unfold scoreExcluded at hexc
    push_neg at hexc
    obtain ⟨h1, h2, h3⟩ := hexc
    have hA : isActionable task now = true := by
      cases hval : isActionable task now
      · exact absurd hval h1
      · rfl
    have := scoreTask_eq_of_not_excluded task k m now hA h2
      (fun e he hm => by
        intro hpos
        exact absurd hpos (by simpa using (h3 e he hm)))
    rw [this] at h
    have hge : (0 : Rat) ≤ kindWeight k + scoreBase task now :=
      add_nonneg (kindWeight_nonneg k) (scoreBase_nonneg task now)
    rw [h] at hge
    norm_num at hge
  · intro h
    unfold scoreTask
    rcases h with h | h | h
    · rw [h]; rfl
    · have hB : task.blockedByTaskIds.isEmpty = false := by
        cases hl : task.blockedByTaskIds
        · exact absurd hl h
        · rfl
      cases hA : isActionable task now
      · rfl
      · rw [hB]; rfl
    · obtain ⟨e, he, hlt, hpos⟩ := h
      have hne : e ≠ 0 := by
        intro h0
        rw [h0] at hlt
        omega
      have hcond : (match task.estimateMinutes with
          | some e => e != 0 && decide (m < (e : Int)) && decide (0 < m)
          | none => false) = true := by
        rw [he]
        simp [hne, hlt, hpos]
      cases hA : isActionable task now
      · rfl
      · cases hB : task.blockedByTaskIds.isEmpty
        · rw [hcond]; rfl
        · rw [hcond]; rfl

/-! Claim theorems. -/

/-- Claim C1: for every task `t`, category kind `k` and budget `m`,
`scoreTask(t, k, m)` returns `-1` exactly when `t` is not actionable at call
time, or `t.blockedByTaskIds` is non-empty, or (`t.estimateMinutes` is set,
exceeds `m`, and `m > 0`); in every other case it returns a score `>= 0`
(so in particular, when `m = 0` an over-estimate task is still scored). -/
theorem spec_C1_scoreTask_exclusion (task : Task) (k : Option CategoryKind)
    (m now : Int) :
    (scoreTask task k m now = -1 ↔
      (isActionable task now = false ∨ task.blockedByTaskIds ≠ [] ∨
        ∃ e, task.estimateMinutes = some e ∧ m < (e : Int) ∧ 0 < m))
    ∧ (scoreTask task k m now = -1 ∨ 0 ≤ scoreTask task k m now) := by
  refine ⟨scoreTask_eq_neg_one_iff task k m now, ?_⟩
  by_cases h : scoreExcluded task m now
  · exact Or.inl ((scoreTask_eq_neg_one_iff task k m now).mpr h)
  · refine Or.inr ?_
    unfold scoreExcluded at h
    push_neg at h
    obtain ⟨h1, h2, h3⟩ := h
    have hA : isActionable task now = true := by
      cases hval : isActionable task now
      · exact absurd hval h1
      · rfl
    rw [scoreTask_eq_of_not_excluded task k m now hA h2
      (fun e he hm hpos => absurd hpos (by simpa using h3 e he hm))]
    exact add_nonneg (kindWeight_nonneg k) (scoreBase_nonneg task now)

/-- Claim C5: for every PENDING task and time `now`, `isActionable` is the
negation of `isWaiting`; for every non-PENDING task `isWaiting` is false. -/
theorem spec_C5_waiting_actionable (t : Task) (now : Int) :
    (t.status = .PENDING → isActionable t now = !isWaiting t now)
    ∧ (t.status ≠ .PENDING → isWaiting t now = false) := by
  constructor
  · intro h
    unfold isActionable isWaiting
    rw [h]
    rcases t.nextActionAt with _ | a
    · rfl
    · simp only [beq_self_eq_true, Bool.and_true, Bool.true_and, bne_self_eq_false,
        Bool.not_true, Bool.false_eq_true, if_false]
      by_cases hlt : now < a
      · have : ¬ a ≤ now := by omega
        simp [hlt, this]
      · have : a ≤ now := by omega
        simp [hlt, this]
  · intro h
    unfold isWaiting
    have : (t.status == .PENDING) = false := by
      cases hs : t.status <;> simp_all
    rw [this]
    rfl

theorem spec_C5_witness :
    isActionable pendingTask 5 = !isWaiting pendingTask 5
    ∧ isWaiting t0 5 = false :=
  ⟨(spec_C5_waiting_actionable pendingTask 5).1 rfl,
   (spec_C5_waiting_actionable t0 5).2 (by decide)⟩

/-- Claim C6: from BACKLOG, `markTaskDone` yields DONE with `completedAt`
set to the transition time; `markTaskArchived` then yields ARCHIVED with
`completedAt` unchanged; `unmarkTaskDone` then yields BACKLOG (never PENDING
or TODAY) with `completedAt` cleared. -/
theorem spec_C6_lifecycle (t : Task) (n1 n2 n3 : Int)
    (h : t.status = .BACKLOG) :
    (markTaskDone t n1).status = .DONE
    ∧ (markTaskDone t n1).completedAt = some n1
    ∧ (markTaskArchived (markTaskDone t n1) n2).status = .ARCHIVED
    ∧ (markTaskArchived (markTaskDone t n1) n2).completedAt = some n1
    ∧ (unmarkTaskDone (markTaskArchived (markTaskDone t n1) n2) n3).status = .BACKLOG
    ∧ (unmarkTaskDone (markTaskArchived (markTaskDone t n1) n2) n3).completedAt = none :=
  ⟨rfl, rfl, rfl, rfl, rfl, rfl⟩

theorem spec_C6_witness :
    (markTaskDone t0 1).status = .DONE
    ∧ (markTaskDone t0 1).completedAt = some 1
    ∧ (markTaskArchived (markTaskDone t0 1) 2).status = .ARCHIVED
    ∧ (markTaskArchived (markTaskDone t0 1) 2).completedAt = some 1
    ∧ (unmarkTaskDone (markTaskArchived (markTaskDone t0 1) 2) 3).status = .BACKLOG
    ∧ (unmarkTaskDone (markTaskArchived (markTaskDone t0 1) 2) 3).completedAt = none :=
  spec_C6_lifecycle t0 1 2 3 rfl

/-- Claim C7 counterexample: for a blocked (hence excluded) task the three
scores are all `-1`, so the strict ordering
`scoreTask(t, LEGAL, 120) > scoreTask(t, MONEY, 120) > scoreTask(t,
MAINTENANCE, 120)` fails. -/
theorem spec_C7_counterexample :
    ¬ (scoreTask blockedTask (some .MONEY) 120 0
        < scoreTask blockedTask (some .LEGAL) 120 0
      ∧ scoreTask blockedTask (some .MAINTENANCE) 120 0
        < scoreTask blockedTask (some .MONEY) 120 0) := by
  intro h
  have h1 : scoreTask blockedTask (some .LEGAL) 120 0 = -1 := rfl
  have h2 : scoreTask blockedTask (some .MONEY) 120 0 = -1 := rfl
  rw [h1, h2] at h
  exact lt_irrefl _ h.1

/-- Claim C7 (amended): for every task that none of `scoreTask`'s exclusion
checks fires on at budget 120 (actionable, unblocked, estimate at most 120
when set), `scoreTask(t, LEGAL, 120) > scoreTask(t, MONEY, 120) >
scoreTask(t, MAINTENANCE, 120)`. -/
theorem spec_C7_amended (t : Task) (now : Int)
    (hA : isActionable t now = true) (hB : t.blockedByTaskIds = [])
    (hE : ∀ e, t.estimateMinutes = some e → (e : Int) ≤ 120) :
    scoreTask t (some .MONEY) 120 now < scoreTask t (some .LEGAL) 120 now
    ∧ scoreTask t (some .MAINTENANCE) 120 now
        < scoreTask t (some .MONEY) 120 now := by
  have hE' : ∀ e, t.estimateMinutes = some e → ((120 : Int) < e → ¬ (0 : Int) < 120) :=
    fun e he hlt => absurd hlt (not_lt.mpr (hE e he))
  rw [scoreTask_eq_of_not_excluded t (some .LEGAL) 120 now hA hB hE',
      scoreTask_eq_of_not_excluded t (some .MONEY) 120 now hA hB hE',
      scoreTask_eq_of_not_excluded t (some .MAINTENANCE) 120 now hA hB hE']
  exact ⟨add_lt_add_right (by norm_num [kindWeight]) (scoreBase t now),
         add_lt_add_right (by norm_num [kindWeight]) (scoreBase t now)⟩

theorem spec_C7_witness :
    scoreTask t0 (some .MONEY) 120 0 < scoreTask t0 (some .LEGAL) 120 0
    ∧ scoreTask t0 (some .MAINTENANCE) 120 0 < scoreTask t0 (some .MONEY) 120 0 :=
  spec_C7_amended t0 0 rfl rfl
    (fun e he => by
      have h30 : t0.estimateMinutes = some 30 := rfl
      rw [h30] at he
      injection he with h
      omega)

/-- The fill loop never grows its accumulator beyond `cap`. -/
theorem fillGo_length_le (cats : List Category) (cap : Nat) (minsLeft : Int)
    (poolBig : Bool) (scored : List Scored) :
    ∀ (result : List Task) (used : Int) (kc : Option CategoryKind → Nat),
      result.length ≤ cap →
      (fillGo cats cap minsLeft poolBig scored result used kc).length ≤ cap := by
  induction scored with
  | nil => intro result used kc h; exact h
  | cons s rest ih =>
    intro result used kc h
    unfold fillGo
    split
    · exact ih result used kc h
    · split
      · exact ih result used kc h
      · split
        · exact ih result used kc h
        · refine ih _ _ _ ?_
          rename_i h1 _ _
          rw [List.length_append]
          simp only [List.length_singleton]
          omega

/-- `fillFromScored` returns at most `cap` tasks. -/
theorem fillFromScored_length_le (cats : List Category)
    (scoredList : List Scored) (cap : Nat) (minsLeft : Int) :
    (fillFromScored cats scoredList cap minsLeft).length ≤ cap :=
  fillGo_length_le cats cap minsLeft _ scoredList [] 0 (fun _ => 0)
    (Nat.zero_le cap)

/-- Claim C2: the pinned tier is exactly the first `maxTasks` actionable
LIFE_ADMIN tasks of status TODAY, in input order — independent of blocking,
estimates versus the budget, and category kinds. -/
theorem spec_C2_pinned (tasks : List Task) (cats : List Category)
    (avail : Int) (maxT : Nat) (now : Int) :
    (buildStabilizerStackSplit tasks cats avail maxT now).pinned
      = (tasks.filter (fun t =>
          t.domain == .LIFE_ADMIN && isActionable t now
            && t.status == .TODAY)).take maxT := by
  have h : (buildStabilizerStackSplit tasks cats avail maxT now).pinned
      = ((tasks.filter (fun t => t.domain == .LIFE_ADMIN && isActionable t now)).filter
          (fun t => t.status == .TODAY)).take maxT := rfl
  rw [h, List.filter_filter]
  congr 1
  refine List.filter_congr ?_
  intro a _
  cases hd : a.domain == TaskDomain.LIFE_ADMIN <;>
    cases ha : isActionable a now <;>
    cases ht : a.status == TaskStatus.TODAY <;> rfl

/-- The suggested tier is a `fillFromScored` run whose slot cap is
`maxTasks` minus the pinned count. -/
theorem suggested_eq_fill (tasks : List Task) (cats : List Category)
    (avail : Int) (maxT : Nat) (now : Int) :
    ∃ sl ml, (buildStabilizerStackSplit tasks cats avail maxT now).suggested
      = fillFromScored cats sl
          (maxT - (buildStabilizerStackSplit tasks cats avail maxT now).pinned.length)
          ml :=
  ⟨_, _, rfl⟩

/-- Claim C4: the pinned and suggested tiers together never exceed
`maxTasks`. -/
theorem spec_C4_total_le_maxTasks (tasks : List Task) (cats : List Category)
    (avail : Int) (maxT : Nat) (now : Int) :
    (buildStabilizerStackSplit tasks cats avail maxT now).pinned.length
      + (buildStabilizerStackSplit tasks cats avail maxT now).suggested.length
      ≤ maxT := by
  have hp : (buildStabilizerStackSplit tasks cats avail maxT now).pinned.length
      ≤ maxT := by
    have h : (buildStabilizerStackSplit tasks cats avail maxT now).pinned
        = ((tasks.filter (fun t => t.domain == .LIFE_ADMIN && isActionable t now)).filter
            (fun t => t.status == .TODAY)).take maxT := rfl
    rw [h, List.length_take]
    exact min_le_left _ _
  obtain ⟨sl, ml, he⟩ := suggested_eq_fill tasks cats avail maxT now
  have hs := he ▸ fillFromScored_length_le cats sl
    (maxT - (buildStabilizerStackSplit tasks cats avail maxT now).pinned.length) ml
  omega

/-! Lemmas for the capacity bound of the suggested tier. -/

theorem estSum_nonneg (l : List Task) : 0 ≤ estSum l := by
  refine List.sum_nonneg ?_
  intro x hx
  rw [List.mem_map] at hx
  obtain ⟨t, _, rfl⟩ := hx
  positivity

theorem estSum_append (l1 l2 : List Task) :
    estSum (l1 ++ l2) = estSum l1 + estSum l2 := by
  unfold estSum
  rw [List.map_append, List.sum_append]

theorem mem_insertDesc {p q : Scored} {l : List Scored} :
    q ∈ insertDesc p l ↔ q ∈ p :: l := by
  induction l with
  | nil => simp [insertDesc]
  | cons r rs ih =>
    unfold insertDesc
    split
    · simp only [List.mem_cons] at *
      tauto
    · simp

theorem mem_sortByScoreDesc {q : Scored} {l : List Scored} :
    q ∈ sortByScoreDesc l ↔ q ∈ l := by
  induction l with
  | nil => simp [sortByScoreDesc]
  | cons r rs ih =>
    show q ∈ insertDesc r (sortByScoreDesc rs) ↔ _
    rw [mem_insertDesc]
    simp only [List.mem_cons, ih]

/-- A nonnegatively scored task with a set, nonzero estimate fits a positive
budget (otherwise the estimate check inside `scoreTask` would have fired). -/
theorem scoreTask_nonneg_est_le (t : Task) (k : Option CategoryKind)
    (m now : Int) (h : 0 ≤ scoreTask t k m now) (hm : 0 < m) :
    ∀ e, t.estimateMinutes = some e → e ≠ 0 → (e : Int) ≤ m := by
  intro e he _
  by_contra hgt
  push_neg at hgt
  have hneg : scoreTask t k m now = -1 :=
    (scoreTask_eq_neg_one_iff t k m now).mpr (Or.inr (Or.inr ⟨e, he, hgt, hm⟩))
  rw [hneg] at h
  norm_num at h

/-- Capacity invariant of the fill loop: if every candidate with a set,
nonzero estimate fits `avail`, the summed set estimates of the result stay
at most `avail`.  The disjunctive state captures the one-time budget bypass:
either the used minutes still fit `minsLeft`, or the bypass has happened
(`minsLeft < used`), after which the guard `usedMinutes > 0` blocks every
further insertion. -/
theorem fillGo_estSum_le (cats : List Category) (cap : Nat)
    (avail minsLeft : Int) (poolBig : Bool)
    (hmla : minsLeft ≤ avail) (ha : 0 < avail) (scored : List Scored) :
    ∀ (result : List Task) (used : Int) (kc : Option CategoryKind → Nat),
      (∀ s ∈ scored, ∀ e, s.task.estimateMinutes = some e → e ≠ 0 →
        (e : Int) ≤ avail) →
      0 ≤ used →
      estSum result ≤ used →
      (used ≤ minsLeft ∨ (estSum result ≤ avail ∧ minsLeft < used)) →
      estSum (fillGo cats cap minsLeft poolBig scored result used kc) ≤ avail := by
  induction scored with
  | nil =>
    intro result used kc _ _ hres hstate
    rcases hstate with h | h
    · exact hres.trans (h.trans hmla)
    · exact h.1
  | cons s rest ih =>
    intro result used kc hsc hu hres hstate
    have hsc' : ∀ q ∈ rest, ∀ e, q.task.estimateMinutes = some e → e ≠ 0 →
        (e : Int) ≤ avail :=
      fun q hq => hsc q (List.mem_cons_of_mem _ hq)
    have hhead : ∀ e, s.task.estimateMinutes = some e → e ≠ 0 →
        (e : Int) ≤ avail := hsc s (List.mem_cons_self s rest)
    unfold fillGo
    split
    · exact ih result used kc hsc' hu hres hstate
    · split
      · exact ih result used kc hsc' hu hres hstate
      · split
        · exact ih result used kc hsc' hu hres hstate
        · rename_i hcap hbudget hkind
          -- the insertion branch
          set e15 : Int := ((s.task.estimateMinutes.getD 15 : Nat) : Int) with he15
          have he15nn : 0 ≤ e15 := by positivity
          have he0le : ((s.task.estimateMinutes.getD 0 : Nat) : Int) ≤ e15 := by
            rw [he15]
            rcases s.task.estimateMinutes with _ | e
            · norm_num
            · norm_num
          have hsum : estSum (result ++ [s.task])
              = estSum result + ((s.task.estimateMinutes.getD 0 : Nat) : Int) := by
            rw [estSum_append]
            simp [estSum]
          have he0avail : ((s.task.estimateMinutes.getD 0 : Nat) : Int) ≤ avail := by
            rcases hopt : s.task.estimateMinutes with _ | e
            · simpa using ha.le
            · by_cases hz : e = 0
              · subst hz; simpa using ha.le
              · simpa using hhead e hopt hz
          refine ih (result ++ [s.task]) (used + e15) _ hsc' (by omega) ?_ ?_
          · rw [hsum]; omega
          · push_neg at hbudget
            by_cases hfit : used + e15 ≤ minsLeft
            · exact Or.inl hfit
            · have hused0 : used ≤ 0 := hbudget (by omega)
              have hz : used = 0 := le_antisymm hused0 hu
              rcases le_or_lt (used + e15) minsLeft with hle | hgt
              · exact Or.inl hle
              · refine Or.inr ⟨?_, hgt⟩
                rw [hsum]
                have : estSum result = 0 := le_antisymm (hres.trans hz.le) (estSum_nonneg result)
                omega

/-- The suggested tier, decomposed: a `fillFromScored` run over the sorted,
nonnegatively scored candidate pool `X` with budget
`max 0 (availableMinutes - pinnedMinutes)`. -/
theorem build_suggested_decomp (tasks : List Task) (cats : List Category)
    (avail : Int) (maxT : Nat) (now : Int) :
    ∃ (pm : Nat) (X : List Task),
      (buildStabilizerStackSplit tasks cats avail maxT now).suggested
        = fillFromScored cats
            (sortByScoreDesc ((X.map (fun t =>
                { task := t
                  score := scoreTask t ((catLookup cats t.categoryId).map (·.kind))
                    avail now : Scored })).filter
              (fun s => decide (0 ≤ s.score))))
            (maxT - (buildStabilizerStackSplit tasks cats avail maxT now).pinned.length)
            (max 0 (avail - (pm : Int))) :=
  ⟨_, _, rfl⟩

/-- Claim C3 counterexample: at `availableMinutes = 0` the first-candidate
budget bypass admits a 30-minute task into the suggested tier, whose summed
estimates (30) then exceed the available minutes (0). -/
theorem spec_C3_counterexample :
    ¬ (estSum (buildStabilizerStackSplit [t0] cats0 0 5 0).suggested ≤ 0) := by
  have h : estSum (buildStabilizerStackSplit [t0] cats0 0 5 0).suggested = 30 := by
    with_unfolding_all rfl
  rw [h]
  norm_num

/-- Claim C3 (amended): whenever `availableMinutes > 0`, the summed
`estimateMinutes` of the suggested tier never exceed `availableMinutes`
(at `availableMinutes = 0` the first-candidate bypass can break the bound,
see the counterexample). -/
theorem spec_C3_amended (tasks : List Task) (cats : List Category)
    (avail : Int) (maxT : Nat) (now : Int) (ha : 0 < avail) :
    estSum (buildStabilizerStackSplit tasks cats avail maxT now).suggested
      ≤ avail := by
  obtain ⟨pm, X, heq⟩ := build_suggested_decomp tasks cats avail maxT now
  rw [heq]
  unfold fillFromScored
  refine fillGo_estSum_le cats _ avail _ _
    (max_le ha.le (sub_le_self avail (by positivity))) ha _ [] 0 _
    ?_ le_rfl (by simp [estSum]) (Or.inl (le_max_left _ _))
  intro q hq e he hne
  rw [mem_sortByScoreDesc, List.mem_filter] at hq
  obtain ⟨hmem, hscore⟩ := hq
  rw [List.mem_map] at hmem
  obtain ⟨t, _, hmk⟩ := hmem
  cases hmk
  exact scoreTask_nonneg_est_le t _ avail now (of_decide_eq_true hscore) ha e he hne

theorem spec_C3_witness :
    (0 : Int) < 100
    ∧ estSum (buildStabilizerStackSplit [t0] cats0 100 5 0).suggested ≤ 100 :=
  ⟨by norm_num, spec_C3_amended [t0] cats0 100 5 0 (by norm_num)⟩

/-! Lemmas for tier disjointness and duplicate-freedom. -/

theorem insertDesc_perm (p : Scored) (l : List Scored) :
    (insertDesc p l).Perm (p :: l) := by
  induction l with
  | nil => exact List.Perm.refl _
  | cons q qs ih =>
    unfold insertDesc
    split
    · exact (ih.cons q).trans (List.Perm.swap p q qs)
    · exact List.Perm.refl _

theorem sortByScoreDesc_perm (l : List Scored) :
    (sortByScoreDesc l).Perm l := by
  induction l with
  | nil => exact List.Perm.refl _
  | cons q qs ih =>
    show (insertDesc q (sortByScoreDesc qs)).Perm (q :: qs)
    exact (insertDesc_perm q _).trans (ih.cons q)

/-- Everything the fill loop returns comes from its accumulator or from the
tasks of its candidate list. -/
theorem fillGo_mem (cats : List Category) (cap : Nat) (minsLeft : Int)
    (poolBig : Bool) (scored : List Scored) :
    ∀ (result : List Task) (used : Int) (kc : Option CategoryKind → Nat)
      (x : Task),
      x ∈ fillGo cats cap minsLeft poolBig scored result used kc →
      x ∈ result ∨ ∃ s ∈ scored, x = s.task := by
  induction scored with
  | nil => intro result used kc x hx; exact Or.inl hx
  | cons s rest ih =>
    intro result used kc x hx
    unfold fillGo at hx
    split at hx
    · rcases ih _ _ _ _ hx with h | ⟨q, hq, he⟩
      · exact Or.inl h
      · exact Or.inr ⟨q, List.mem_cons_of_mem _ hq, he⟩
    · split at hx
      · rcases ih _ _ _ _ hx with h | ⟨q, hq, he⟩
        · exact Or.inl h
        · exact Or.inr ⟨q, List.mem_cons_of_mem _ hq, he⟩
      · split at hx
        · rcases ih _ _ _ _ hx with h | ⟨q, hq, he⟩
          · exact Or.inl h
          · exact Or.inr ⟨q, List.mem_cons_of_mem _ hq, he⟩
        · rcases ih _ _ _ _ hx with h | ⟨q, hq, he⟩
          · rcases List.mem_append.mp h with h1 | h1
            · exact Or.inl h1
            · exact Or.inr ⟨s, List.mem_cons_self s rest, by simpa using h1⟩
          · exact Or.inr ⟨q, List.mem_cons_of_mem _ hq, he⟩

/-- The fill loop preserves duplicate-freedom of task ids: if the
accumulator's ids and the candidates' ids are jointly duplicate-free, so is
the result. -/
theorem fillGo_nodup (cats : List Category) (cap : Nat) (minsLeft : Int)
    (poolBig : Bool) (scored : List Scored) :
    ∀ (result : List Task) (used : Int) (kc : Option CategoryKind → Nat),
      (result.map (·.id) ++ scored.map (·.task.id)).Nodup →
      ((fillGo cats cap minsLeft poolBig scored result used kc).map
        (·.id)).Nodup := by
  induction scored with
  | nil =>
    intro result used kc h
    show (result.map (·.id)).Nodup
    simpa using h
  | cons s rest ih =>
    intro result used kc h
    have hskip : (result.map (·.id) ++ rest.map (·.task.id)).Nodup := by
      refine h.sublist ?_
      refine (List.append_sublist_append_left _).mpr ?_
      exact List.Sublist.cons _ (List.Sublist.refl _)
    have hadd : ((result ++ [s.task]).map (·.id) ++ rest.map (·.task.id)).Nodup := by
      simpa [List.map_append, List.append_assoc] using h
    unfold fillGo
    split
    · exact ih result used kc hskip
    · split
      · exact ih result used kc hskip
      · split
        · exact ih result used kc hskip
        · exact ih _ _ _ hadd

/-- The suggested tier, decomposed with its candidate pool made explicit:
the pool excludes every pinned task id. -/
theorem build_suggested_pool (tasks : List Task) (cats : List Category)
    (avail : Int) (maxT : Nat) (now : Int) :
    ∃ (cap2 : Nat) (ml : Int),
      (buildStabilizerStackSplit tasks cats avail maxT now).suggested
        = fillFromScored cats
            (sortByScoreDesc
              ((((tasks.filter (fun t =>
                    t.domain == .LIFE_ADMIN && isActionable t now)).filter
                  (fun t =>
                    !(((buildStabilizerStackSplit tasks cats avail maxT
                        now).pinned.map (·.id)).contains t.id))).map
                (fun t =>
                  { task := t
                    score := scoreTask t
                      ((catLookup cats t.categoryId).map (·.kind)) avail now
                    : Scored })).filter
                (fun s => decide (0 ≤ s.score))))
            cap2 ml :=
  ⟨_, _, rfl⟩

/-- Claim C10 counterexample: with the same task listed twice in the input,
that task is suggested twice, so the concatenated stack has a duplicate
(the cross-tier id disjointness still holds; only the claim's no-duplicate
consequence fails on duplicated input ids). -/
theorem spec_C10_counterexample :
    ¬ ((buildStabilizerStack [t0, t0] cats0 100 5 0).map (·.id)).Nodup := by
  with_unfolding_all decide

/-- Claim C10 (amended): the two tiers are always disjoint by task id; and
whenever the input task ids are duplicate-free, the concatenated list
returned by `buildStabilizerStack` has duplicate-free task ids. -/
theorem spec_C10_amended (tasks : List Task) (cats : List Category)
    (avail : Int) (maxT : Nat) (now : Int) :
    (∀ t ∈ (buildStabilizerStackSplit tasks cats avail maxT now).suggested,
        t.id ∉ (buildStabilizerStackSplit tasks cats avail maxT now).pinned.map
          (·.id))
    ∧ ((tasks.map (·.id)).Nodup →
        ((buildStabilizerStack tasks cats avail maxT now).map (·.id)).Nodup) := by
  obtain ⟨cap2, ml, heq⟩ := build_suggested_pool tasks cats avail maxT now
  have ha : ∀ t ∈ (buildStabilizerStackSplit tasks cats avail maxT now).suggested,
      t.id ∉ (buildStabilizerStackSplit tasks cats avail maxT now).pinned.map
        (·.id) := by
    intro t ht
    rw [heq] at ht
    unfold fillFromScored at ht
    rcases fillGo_mem cats cap2 ml _ _ [] 0 (fun _ => 0) t ht with h | ⟨q, hq, hqt⟩
    · exact absurd h (List.not_mem_nil t)
    · rw [mem_sortByScoreDesc, List.mem_filter] at hq
      obtain ⟨hqm, _⟩ := hq
      rw [List.mem_map] at hqm
      obtain ⟨u, hu, hmk⟩ := hqm
      cases hmk
      rw [List.mem_filter] at hu
      subst hqt
      simpa using hu.2
  refine ⟨ha, fun h => ?_⟩
  have hbuild : buildStabilizerStack tasks cats avail maxT now
      = (buildStabilizerStackSplit tasks cats avail maxT now).pinned
        ++ (buildStabilizerStackSplit tasks cats avail maxT now).suggested := rfl
  rw [hbuild, List.map_append, List.nodup_append]
  refine ⟨?_, ?_, ?_⟩
  · have hsub : List.Sublist
        (buildStabilizerStackSplit tasks cats avail maxT now).pinned tasks := by
      have hPdef : (buildStabilizerStackSplit tasks cats avail maxT now).pinned
          = ((tasks.filter (fun t =>
              t.domain == .LIFE_ADMIN && isActionable t now)).filter
            (fun t => t.status == .TODAY)).take maxT := rfl
      rw [hPdef]
      exact (List.take_sublist _ _).trans
        ((List.filter_sublist _).trans (List.filter_sublist _))
    exact h.sublist (List.Sublist.map _ hsub)
  · rw [heq]
    unfold fillFromScored
    refine fillGo_nodup cats cap2 ml _ _ [] 0 (fun _ => 0) ?_
    simp only [List.map_nil, List.nil_append]
    rw [List.Perm.nodup_iff ((sortByScoreDesc_perm _).map (fun s => s.task.id))]
    rw [List.filter_map, List.map_map]
    show (((tasks.filter _).filter _).filter _ |>.map (fun t => t.id)).Nodup
    refine h.sublist (List.Sublist.map _ ?_)
    exact (List.filter_sublist _).trans
      ((List.filter_sublist _).trans (List.filter_sublist _))
  · intro a haP haS
    obtain ⟨t, ht, hta⟩ := List.mem_map.mp haS
    exact ha t ht (hta ▸ haP)

theorem spec_C10_witness :
    ((buildStabilizerStack [t0] cats0 100 5 0).map (·.id)).Nodup :=
  (spec_C10_amended [t0] cats0 100 5 0).2 (by decide)

/-! Habit-engine claims. -/

/-- Claim C8: for an EVERY_N_DAYS habit and any date on or after the start
date, the habit is scheduled exactly when the whole-day difference from the
start date is evenly divisible by `max 1 everyNDays`; the start date itself
(day 0) is always scheduled. -/
theorem spec_C8_everyNDays (h : Habit) (date : Int)
    (hs : h.scheduleType = .EVERY_N_DAYS) (hd : h.startDate ≤ date) :
    (isHabitScheduledOnDate h date = true
      ↔ (date - h.startDate).emod ((max 1 (h.everyNDays.getD 1) : Nat) : Int) = 0)
    ∧ isHabitScheduledOnDate h h.startDate = true := by
  constructor
  · unfold isHabitScheduledOnDate
    rw [hs, if_neg (by omega : ¬ date < h.startDate)]
    simp
  · unfold isHabitScheduledOnDate
    rw [hs, if_neg (by omega : ¬ h.startDate < h.startDate)]
    show ((h.startDate - h.startDate).emod _ == 0) = true
    rw [sub_self, beq_iff_eq]
    exact Int.zero_emod _

theorem spec_C8_witness :
    isHabitScheduledOnDate exHabit (daysFromCivil 2026 2 1) = true
    ∧ isHabitScheduledOnDate exHabit (daysFromCivil 2026 2 4) = true
    ∧ isHabitScheduledOnDate exHabit (daysFromCivil 2026 2 2) = false
    ∧ isHabitScheduledOnDate exHabit (daysFromCivil 2026 2 3) = false :=
  ⟨(spec_C8_everyNDays exHabit (daysFromCivil 2026 2 1) rfl (by decide)).2,
   (spec_C8_everyNDays exHabit (daysFromCivil 2026 2 4) rfl (by decide)).1.mpr
     (by decide),
   by decide, by decide⟩

theorem logsFor_append (l1 l2 : List HabitLog) (hid : String) (d : Int) :
    logsFor (l1 ++ l2) hid d = logsFor l1 hid d ++ logsFor l2 hid d :=
  List.filter_append l1 l2

/-- The overwrite pass of `upsertHabitLog` commutes with filtering by any
key, because patching a record never changes its (habitId, date) key. -/
theorem upsert_overwrite_filter (store : List HabitLog) (hid : String)
    (d : Int) (p : HabitLogPatch) (h2 : String) (d2 : Int) :
    logsFor (store.map (fun l =>
      if l.habitId == hid && l.date == d then
        { l with status := p.status, value := p.value, note := p.note }
      else l)) h2 d2
    = (logsFor store h2 d2).map (fun l =>
      if l.habitId == hid && l.date == d then
        { l with status := p.status, value := p.value, note := p.note }
      else l) := by
  unfold logsFor
  rw [List.filter_map]
  congr 1
  refine List.filter_congr ?_
  intro l _
  by_cases hm : (l.habitId == hid && l.date == d) = true
  · simp [hm, Function.comp]
  · simp [hm, Function.comp]

/-- Claim C9: starting from a store with at most one log per (habitId,
date) key, `upsertHabitLog` leaves exactly one record for the upserted key,
whose status/value/note are those of the call, and preserves the at-most-one
invariant for every key — so any sequence of upserts keeps exactly one
record per touched key, reflecting the most recent call, and a repeated call
overwrites in place instead of inserting. -/
theorem spec_C9_upsert (store : List HabitLog) (hid : String) (d : Int)
    (p : HabitLogPatch) (newId : String)
    (hinv : ∀ h2 d2, (logsFor store h2 d2).length ≤ 1) :
    (logsFor (upsertHabitLog store hid d p newId) hid d).length = 1
    ∧ (∀ l ∈ logsFor (upsertHabitLog store hid d p newId) hid d,
        l.status = p.status ∧ l.value = p.value ∧ l.note = p.note)
    ∧ (∀ h2 d2,
        (logsFor (upsertHabitLog store hid d p newId) h2 d2).length ≤ 1) := by
  by_cases hex : store.any (fun l => l.habitId == hid && l.date == d) = true
  · have hups : upsertHabitLog store hid d p newId
        = store.map (fun l =>
            if l.habitId == hid && l.date == d then
              { l with status := p.status, value := p.value, note := p.note }
            else l) := by
      unfold upsertHabitLog
      rw [if_pos hex]
    rw [hups]
    refine ⟨?_, ?_, ?_⟩
    · rw [upsert_overwrite_filter store hid d p hid d, List.length_map]
      have h1 : 0 < (logsFor store hid d).length := by
        rw [List.any_eq_true] at hex
        obtain ⟨x, hx, hpx⟩ := hex
        exact List.length_pos_of_mem (List.mem_filter.mpr ⟨hx, hpx⟩)
      have h2 := hinv hid d
      omega
    · intro l hl
      rw [upsert_overwrite_filter store hid d p hid d, List.mem_map] at hl
      obtain ⟨x, hx, hfx⟩ := hl
      have hq : (x.habitId == hid && x.date == d) = true :=
        (List.mem_filter.mp hx).2
      rw [← hfx]
      simp [hq]
    · intro h2 d2
      rw [upsert_overwrite_filter store hid d p h2 d2, List.length_map]
      exact hinv h2 d2
  · have hups : upsertHabitLog store hid d p newId
        = store ++ [mkLog newId hid d p] := by
      unfold upsertHabitLog mkLog
      rw [if_neg hex]
    have hnil : logsFor store hid d = [] := by
      unfold logsFor
      rw [List.filter_eq_nil_iff]
      intro a ha hpa
      exact hex (List.any_eq_true.mpr ⟨a, ha, hpa⟩)
    rw [hups]
    refine ⟨?_, ?_, ?_⟩
    · rw [logsFor_append, hnil, List.nil_append]
      simp [logsFor, mkLog]
    · intro l hl
      rw [logsFor_append, hnil, List.nil_append] at hl
      have hln : l = mkLog newId hid d p := by
        simp [logsFor] at hl
        exact hl.1
      rw [hln]
      exact ⟨rfl, rfl, rfl⟩
    · intro h2 d2
      rw [logsFor_append, List.length_append]
      by_cases hh : hid = h2
      · by_cases hdd : d = d2
        · subst hh; subst hdd
          rw [hnil]
          simp [logsFor, mkLog]
        · have hone : logsFor [mkLog newId hid d p] h2 d2 = [] := by
            simp [logsFor, mkLog, hdd]
          rw [hone]
          have := hinv h2 d2
          simp only [List.length_nil]
          omega
      · have hone : logsFor [mkLog newId hid d p] h2 d2 = [] := by
          simp [logsFor, mkLog, hh]
        rw [hone]
        have := hinv h2 d2
        simp only [List.length_nil]
        omega

theorem spec_C9_witness :
    (logsFor (upsertHabitLog
        (upsertHabitLog [] "h1" 20510 { status := .DONE, value := some 1 } "id1")
        "h1" 20510 { status := .PARTIAL, value := some 2 } "id2") "h1" 20510).length = 1
    ∧ ∀ l ∈ logsFor (upsertHabitLog
        (upsertHabitLog [] "h1" 20510 { status := .DONE, value := some 1 } "id1")
        "h1" 20510 { status := .PARTIAL, value := some 2 } "id2") "h1" 20510,
        l.status = .PARTIAL ∧ l.value = some 2 ∧ l.note = none := by
  have h1 := spec_C9_upsert [] "h1" 20510 { status := .DONE, value := some 1 }
    "id1" (fun h2 d2 => by simp [logsFor])
  have h2 := spec_C9_upsert
    (upsertHabitLog [] "h1" 20510 { status := .DONE, value := some 1 } "id1")
    "h1" 20510 { status := .PARTIAL, value := some 2 } "id2" h1.2.2
  exact ⟨h2.1, h2.2.1⟩

end StabOS
